import Mathlib

/-!
Verification of the lexicon-constrained beam-search decoder
(`LexiconDecoder.cpp`, namespace `w2l`).

Modelling conventions:
* scores (`double` extended with the negative-infinity sentinel
  `kNegativeInfinity`) are `WithBot ℝ`, with `⊥` standing for `-∞`;
* LM states (opaque handles with a total order supplied by the LM's
  `compare`) are an arbitrary linearly ordered type `L`;
* trie nodes carry a unique integer identity standing for their address,
  used wherever the source compares trie-node pointers;
* `std::sort` / `std::partial_sort` over a strict comparator `lt` are
  modelled by the deterministic `List.insertionSort` over the reflexive
  relation `fun a b => not (lt b a)`, which produces one of the orders a
  conforming `std::sort` may produce;
* the helpers declared in the decoder utility header (`mergeStates`,
  `isValidCandidate`, `pruneCandidates`, `storeTopCandidates`,
  `findBestAncestor`, `getHypothesis`, `pruneAndNormalize`) are not part
  of the sources at hand and are modelled from the specification; each
  such definition is marked `Modelled from the spec:`.
-/

namespace W2L

/-- Emission criterion selecting the expansion rules. -/
inductive CriterionType where
  | ASG
  | CTC
deriving DecidableEq

/-- Lexicon trie node: unique integer identity (standing for the node's
address), children keyed by token index, terminal word labels, and the
best LM-weighted score reachable in the subtree. -/
inductive TrieNode where
  | mk (id : Nat) (children : List (Int × TrieNode)) (labels : List Int) (maxScore : ℝ)

/-- Unique identity of a trie node (models the node's address). -/
def TrieNode.id : TrieNode → Nat
  | .mk i _ _ _ => i

/-- Children of a trie node, keyed by token index. -/
def TrieNode.children : TrieNode → List (Int × TrieNode)
  | .mk _ c _ _ => c

/-- Terminal word labels of a trie node. -/
def TrieNode.labels : TrieNode → List Int
  | .mk _ _ l _ => l

/-- Best LM-weighted score of any word reachable below the node. -/
def TrieNode.maxScore : TrieNode → ℝ
  | .mk _ _ _ m => m

/-- Lookup of a child by token index (`children.find(n)`). -/
def TrieNode.findChild (node : TrieNode) (tok : Int) : Option TrieNode :=
  node.children.lookup tok

/-- Language-model contract: initial state, scoring of a token or word
index, and finishing. The total order on states comes from the
`LinearOrder` on `L`. -/
structure LM (L : Type) where
  start : Bool → L
  score : L → Int → L × ℝ
  finish : L → L × ℝ

/-- Decoder configuration (`DecoderOptions`). -/
structure DecoderOptions where
  beamSize : Nat
  beamSizeToken : Nat
  beamThreshold : ℝ
  lmWeight : ℝ
  wordScore : ℝ
  unkScore : WithBot ℝ
  silScore : ℝ
  logAdd : Bool
  criterionType : CriterionType

/-- Hypothesis record (`LexiconDecoderState`): LM state, trie node,
back-reference to the predecessor (value-embedded, modelling the parent
pointer chain), accumulated score, last token, emitted word (or `-1`),
and the CTC `prevBlank` flag. -/
inductive LexiconDecoderState (L : Type) where
  | mk (lmState : L) (lex : TrieNode) (parent : Option (LexiconDecoderState L))
      (score : WithBot ℝ) (token : Int) (word : Int) (prevBlank : Bool)

namespace LexiconDecoderState

variable {L : Type}

/-- LM state of a hypothesis. -/
def lmState : LexiconDecoderState L → L
  | .mk a _ _ _ _ _ _ => a

/-- Trie node of a hypothesis. -/
def lex : LexiconDecoderState L → TrieNode
  | .mk _ l _ _ _ _ _ => l

/-- Parent back-reference of a hypothesis. -/
def parent : LexiconDecoderState L → Option (LexiconDecoderState L)
  | .mk _ _ p _ _ _ _ => p

/-- Accumulated score of a hypothesis. -/
def score : LexiconDecoderState L → WithBot ℝ
  | .mk _ _ _ s _ _ _ => s

/-- Last emitted token of a hypothesis. -/
def token : LexiconDecoderState L → Int
  | .mk _ _ _ _ t _ _ => t

/-- Word emitted at this hypothesis, or `-1`. -/
def word : LexiconDecoderState L → Int
  | .mk _ _ _ _ _ w _ => w

/-- CTC flag: the previously emitted token was blank. -/
def prevBlank : LexiconDecoderState L → Bool
  | .mk _ _ _ _ _ _ b => b

/-- Replace the score of a hypothesis, keeping every other field. -/
def setScore : LexiconDecoderState L → WithBot ℝ → LexiconDecoderState L
  | .mk a l p _ t w b, s => .mk a l p s t w b

/-- Equivalence key for merging: `(lm_state, lex identity, token,
prev_blank)`. -/
def key (s : LexiconDecoderState L) : L × Nat × Int × Bool :=
  (s.lmState, s.lex.id, s.token, s.prevBlank)

@[simp] theorem lmState_mk (a : L) (l p s t w b) :
    (LexiconDecoderState.mk a l p s t w b).lmState = a := rfl

@[simp] theorem lex_mk (a : L) (l p s t w b) :
    (LexiconDecoderState.mk a l p s t w b).lex = l := rfl

@[simp] theorem parent_mk (a : L) (l p s t w b) :
    (LexiconDecoderState.mk a l p s t w b).parent = p := rfl

@[simp] theorem score_mk (a : L) (l p s t w b) :
    (LexiconDecoderState.mk a l p s t w b).score = s := rfl

@[simp] theorem token_mk (a : L) (l p s t w b) :
    (LexiconDecoderState.mk a l p s t w b).token = t := rfl

@[simp] theorem word_mk (a : L) (l p s t w b) :
    (LexiconDecoderState.mk a l p s t w b).word = w := rfl

@[simp] theorem prevBlank_mk (a : L) (l p s t w b) :
    (LexiconDecoderState.mk a l p s t w b).prevBlank = b := rfl

@[simp] theorem setScore_mk (a : L) (l p s t w b s') :
    (LexiconDecoderState.mk a l p s t w b).setScore s' = .mk a l p s' t w b := rfl

@[simp] theorem key_setScore (x : LexiconDecoderState L) (s : WithBot ℝ) :
    (x.setScore s).key = x.key := by
  cases x; rfl

@[simp] theorem score_setScore (x : LexiconDecoderState L) (s : WithBot ℝ) :
    (x.setScore s).score = s := by
  cases x; rfl

end LexiconDecoderState

variable {L : Type}

/-- Modelled from the spec: numerically stable log-add,
`max(a,b) + log1p(exp(−|a−b|))`, with either input equal to `−∞` passing
the other through (helper from the decoder utility header, absent from
the sources at hand). -/
noncomputable def logAdd (a b : WithBot ℝ) : WithBot ℝ :=
  WithBot.recBotCoe b
    (fun x => WithBot.recBotCoe (↑x)
      (fun y => ((max x y + Real.log (1 + Real.exp (-|x - y|)) : ℝ) : WithBot ℝ)) b) a

/-- Shift a running best score down by the beam threshold; `⊥` stays
`⊥`. -/
def shiftDown (best : WithBot ℝ) (thr : ℝ) : WithBot ℝ :=
  best.map (fun x => x - thr)

/-- Modelled from the spec: validity of a candidate against the running
best, `score ≥ best − thr` and `score > −∞` (helper from the decoder
utility header, absent from the sources at hand). -/
def isValidCandidate (best score : WithBot ℝ) (thr : ℝ) : Prop :=
  shiftDown best thr ≤ score ∧ ⊥ < score

/-- Staging candidate buffer: the running best score ever offered and
the accepted candidates in arrival order (`candidatesBestScore_`,
`candidates_`). -/
structure CandidateBuffer (L : Type) where
  bestScore : WithBot ℝ
  cands : List (LexiconDecoderState L)

/-- `candidatesReset`: best score down to `−∞`, no candidates. -/
def candidatesReset : CandidateBuffer L :=
  ⟨⊥, []⟩

open Classical in
/-- `candidatesAdd`: append the candidate when it is valid against the
current best, and keep the running best at the maximum score ever
offered. -/
noncomputable def candidatesAdd (opt : DecoderOptions) (buf : CandidateBuffer L)
    (c : LexiconDecoderState L) : CandidateBuffer L :=
  ⟨max buf.bestScore c.score,
   if isValidCandidate buf.bestScore c.score opt.beamThreshold then buf.cands ++ [c]
   else buf.cands⟩

open Classical in
/-- Modelled from the spec: retain the staged candidates whose score is
at least the threshold (`pruneCandidates`, from the decoder utility
header, absent from the sources at hand). -/
noncomputable def pruneCandidates (buf : CandidateBuffer L) (scoreThreshold : WithBot ℝ) :
    List (LexiconDecoderState L) :=
  buf.cands.filter (fun c => decide (scoreThreshold ≤ c.score))

/-- Modelled from the spec: merge two equal-key states, combining the
scores by log-add when `lAdd` is set and by max otherwise; the first
argument (the run's representative, which the sort placed first) keeps
its parent and word (`mergeStates`, from the decoder utility header,
absent from the sources at hand). -/
noncomputable def mergeStates (oldNode newNode : LexiconDecoderState L) (lAdd : Bool) :
    LexiconDecoderState L :=
  oldNode.setScore
    (if lAdd then logAdd oldNode.score newNode.score else max oldNode.score newNode.score)

/-- The merge comparator of `mergeCandidates` (`compareNodesShortList`):
strictly-descending lexicographic comparison on LM state, trie-node
identity, token, `prevBlank`, and finally score. -/
def compareNodesShortList [LinearOrder L] (a b : LexiconDecoderState L) : Prop :=
  if a.lmState ≠ b.lmState then b.lmState < a.lmState
  else if a.lex.id ≠ b.lex.id then b.lex.id < a.lex.id
  else if a.token ≠ b.token then b.token < a.token
  else if a.prevBlank ≠ b.prevBlank then b.prevBlank < a.prevBlank
  else b.score < a.score

/-- The reflexive relation under which a conforming `std::sort` run with
`compareNodesShortList` leaves the array sorted. -/
def sortLe [LinearOrder L] (a b : LexiconDecoderState L) : Prop :=
  ¬ compareNodesShortList b a

noncomputable instance [LinearOrder L] : DecidableRel (@sortLe L _) :=
  fun _ _ => Classical.propDecidable _

/-- The sort phase of `mergeCandidates` (`std::sort` with
`compareNodesShortList`). -/
noncomputable def sortCands [LinearOrder L] (l : List (LexiconDecoderState L)) :
    List (LexiconDecoderState L) :=
  List.insertionSort sortLe l

/-- The sweep phase of `mergeCandidates`: collapse each run of
equal-key candidates into its first element, folding the scores in via
`mergeStates`. -/
noncomputable def mergeSweep [LinearOrder L] (lAdd : Bool) :
    LexiconDecoderState L → List (LexiconDecoderState L) → List (LexiconDecoderState L)
  | keep, [] => [keep]
  | keep, x :: xs =>
    if x.key = keep.key then mergeSweep lAdd (mergeStates keep x lAdd) xs
    else keep :: mergeSweep lAdd x xs

/-- `mergeCandidates`: sort by `compareNodesShortList`, then sweep,
collapsing equal-key runs. -/
noncomputable def mergeCandidates [LinearOrder L] (lAdd : Bool)
    (l : List (LexiconDecoderState L)) : List (LexiconDecoderState L) :=
  match sortCands l with
  | [] => []
  | x :: xs => mergeSweep lAdd x xs

/-- Descending-score relation used for the top-K selection. -/
def scoreBefore (a b : LexiconDecoderState L) : Prop :=
  b.score ≤ a.score

noncomputable instance : DecidableRel (@scoreBefore L) :=
  fun _ _ => Classical.propDecidable _

/-- Modelled from the spec: keep at most `beamSize` entries by score, in
descending-score order (`storeTopCandidates`, from the decoder utility
header, absent from the sources at hand; when the caller does not
request a sorted frame any order suffices, and this model returns the
sorted one). -/
noncomputable def storeTopCandidates (l : List (LexiconDecoderState L)) (beamSize : Nat) :
    List (LexiconDecoderState L) :=
  (List.insertionSort scoreBefore l).take beamSize

/-- `candidatesStore`: empty buffer yields an empty frame; otherwise
prune against `best − beamThreshold`, merge, and keep the top
`beamSize`. -/
noncomputable def candidatesStore [LinearOrder L] (opt : DecoderOptions)
    (buf : CandidateBuffer L) (_returnSorted : Bool) : List (LexiconDecoderState L) :=
  match buf.cands with
  | [] => []
  | _ :: _ =>
    storeTopCandidates
      (mergeCandidates opt.logAdd
        (pruneCandidates buf (shiftDown buf.bestScore opt.beamThreshold)))
      opt.beamSize

/-- The decoder instance: configuration, collaborators, per-instance
fixed parameters, the hypothesis buffer (frame index to vector of
states), and the two frame counters. -/
structure LexiconDecoder (L : Type) where
  opt : DecoderOptions
  lm : LM L
  root : TrieNode
  sil : Int
  blank : Int
  unk : Int
  isLmToken : Bool
  transitions : Int → Int → ℝ
  hyp : List (List (LexiconDecoderState L))
  nDecodedFrames : Int
  nPrunedFrames : Int

/-- Extend the hypothesis buffer with empty frames up to length `n`
(the buffer-extension loop of `decodeStep`, and the `unordered_map`
auto-creation of missing frames). -/
def padTo {α : Type} (l : List (List α)) (n : Nat) : List (List α) :=
  l ++ List.replicate (n - l.length) []

/-- The shared score of a proposed candidate before any LM term:
`p.score + emit[n]`, plus the ASG transition when past the global first
frame, plus the silence bonus when `n` is the silence index. -/
def stepScore (d : LexiconDecoder L) (e : Nat → Int → ℝ) (t : Nat)
    (p : LexiconDecoderState L) (n : Int) : WithBot ℝ :=
  let s1 := p.score + ((e t n : ℝ) : WithBot ℝ)
  let s2 :=
    if d.nDecodedFrames + (t : Int) > 0 ∧ d.opt.criterionType = CriterionType.ASG then
      s1 + ((d.transitions n p.token : ℝ) : WithBot ℝ)
    else s1
  if n = d.sil then s2 + ((d.opt.silScore : ℝ) : WithBot ℝ) else s2

/-- Rule 1, continue-spelling branch: guarded (under CTC) by
`prevBlank ∨ n ≠ p.token`, and by the child having further children. -/
def continueProposals (d : LexiconDecoder L) (p : LexiconDecoderState L) (n : Int)
    (lex : TrieNode) (lexMax : ℝ) (score : WithBot ℝ) (tokLm : L × ℝ) :
    List (LexiconDecoderState L) :=
  if d.opt.criterionType ≠ CriterionType.CTC ∨ p.prevBlank = true ∨ n ≠ p.token then
    if lex.children.isEmpty then []
    else
      [LexiconDecoderState.mk (if d.isLmToken then tokLm.1 else p.lmState) lex (some p)
        (score + ((d.opt.lmWeight * (if d.isLmToken then tokLm.2 else lex.maxScore - lexMax) : ℝ) :
          WithBot ℝ))
        n (-1) false]
  else []

/-- Rule 1, word-emission branch: one candidate per terminal label of
the child, landing back at the trie root. -/
def wordProposals (d : LexiconDecoder L) (p : LexiconDecoderState L) (n : Int)
    (lex : TrieNode) (lexMax : ℝ) (score : WithBot ℝ) (tokLm : L × ℝ) :
    List (LexiconDecoderState L) :=
  lex.labels.map (fun label =>
    let lmPair :=
      if d.isLmToken then tokLm
      else ((d.lm.score p.lmState label).1, (d.lm.score p.lmState label).2 - lexMax)
    LexiconDecoderState.mk lmPair.1 d.root (some p)
      (score + ((d.opt.lmWeight * lmPair.2 : ℝ) : WithBot ℝ) +
        ((d.opt.wordScore : ℝ) : WithBot ℝ))
      n label false)

/-- Rule 1, unknown-word branch: fires when the child has no labels and
`unkScore > −∞`. -/
def unkProposals (d : LexiconDecoder L) (p : LexiconDecoderState L) (n : Int)
    (lex : TrieNode) (lexMax : ℝ) (score : WithBot ℝ) (tokLm : L × ℝ) :
    List (LexiconDecoderState L) :=
  if lex.labels.isEmpty then
    WithBot.recBotCoe []
      (fun us =>
        let lmPair :=
          if d.isLmToken then tokLm
          else ((d.lm.score p.lmState d.unk).1, (d.lm.score p.lmState d.unk).2 - lexMax)
        [LexiconDecoderState.mk lmPair.1 d.root (some p)
          (score + ((d.opt.lmWeight * lmPair.2 : ℝ) : WithBot ℝ) + ((us : ℝ) : WithBot ℝ))
          n d.unk false])
      d.opt.unkScore
  else []

/-- Rule 1 (advance into the trie) for one previous state `p` and one
candidate token `n`: nothing unless `p.lex` has a child at `n`;
otherwise the continue-spelling, word-emission, and unknown-word
branches, in the order the source offers them. -/
def rule1Proposals (d : LexiconDecoder L) (e : Nat → Int → ℝ) (t : Nat)
    (p : LexiconDecoderState L) (n : Int) : List (LexiconDecoderState L) :=
  let lexMax : ℝ := if p.lex.id = d.root.id then 0 else p.lex.maxScore
  match p.lex.findChild n with
  | none => []
  | some lex =>
    let score := stepScore d e t p n
    let tokLm := d.lm.score p.lmState n
    continueProposals d p n lex lexMax score tokLm ++
      wordProposals d p n lex lexMax score tokLm ++
      unkProposals d p n lex lexMax score tokLm

/-- Rule 2 (stay on the same trie node): under ASG always, under CTC
only when `prevBlank` is false; repeats `p.token` with no LM update. -/
def rule2Proposals (d : LexiconDecoder L) (e : Nat → Int → ℝ) (t : Nat)
    (p : LexiconDecoderState L) : List (LexiconDecoderState L) :=
  if d.opt.criterionType ≠ CriterionType.CTC ∨ p.prevBlank = false then
    [LexiconDecoderState.mk p.lmState p.lex (some p) (stepScore d e t p p.token)
      p.token (-1) false]
  else []

/-- Rule 3 (blank), CTC only: one candidate staying on the same trie
node with `prevBlank` set; no transitions, no silence bonus, no LM
update. -/
def rule3Proposals (d : LexiconDecoder L) (e : Nat → Int → ℝ) (t : Nat)
    (p : LexiconDecoderState L) : List (LexiconDecoderState L) :=
  if d.opt.criterionType = CriterionType.CTC then
    [LexiconDecoderState.mk p.lmState p.lex (some p)
      (p.score + ((e t d.blank : ℝ) : WithBot ℝ)) d.blank (-1) true]
  else []

/-- All candidates offered from one previous-frame state, in source
order: rule 1 over the considered tokens, then rule 2, then rule 3. -/
def expandState (d : LexiconDecoder L) (e : Nat → Int → ℝ) (t : Nat) (toks : List Int)
    (p : LexiconDecoderState L) : List (LexiconDecoderState L) :=
  (toks.flatMap (fun n => rule1Proposals d e t p n)) ++
    rule2Proposals d e t p ++ rule3Proposals d e t p

open Classical in
/-- The tokens considered at frame `t`: all `N` tokens when
`N ≤ beamSizeToken`, otherwise the `beamSizeToken` best tokens of the
frame's emission row (the `std::partial_sort` over `idx`). -/
noncomputable def tokensConsidered (opt : DecoderOptions) (e : Nat → Int → ℝ)
    (t N : Nat) : List Int :=
  let idx := (List.range N).map (fun i => (i : Int))
  let idx2 :=
    if opt.beamSizeToken < N then
      @List.insertionSort _ (fun l r => e t r ≤ e t l) (fun _ _ => Classical.propDecidable _) idx
    else idx
  idx2.take (min opt.beamSizeToken N)

/-- One frame of `decodeStep`: reset the candidate buffer, offer the
expansion of every previous-frame state, and store (unsorted). The LM
cache warm-up has no observable effect on decoding and is not
modelled. -/
noncomputable def stepOneFrame [LinearOrder L] (d : LexiconDecoder L) (e : Nat → Int → ℝ)
    (N t : Nat) (prevFrame : List (LexiconDecoderState L)) : List (LexiconDecoderState L) :=
  let toks := tokensConsidered d.opt e t N
  let buf := (prevFrame.flatMap (fun p => expandState d e t toks p)).foldl
    (candidatesAdd d.opt) candidatesReset
  candidatesStore d.opt buf false

/-- The body of the time loop of `decodeStep`: overwrite frame
`startFrame + t + 1` with the stored expansion of frame
`startFrame + t`. -/
noncomputable def stepLoop [LinearOrder L] (d : LexiconDecoder L) (e : Nat → Int → ℝ)
    (N startFrame : Nat) (h : List (List (LexiconDecoderState L))) (t : Nat) :
    List (List (LexiconDecoderState L)) :=
  h.set (startFrame + t + 1) (stepOneFrame d e N t (h.getD (startFrame + t) []))

/-- `decodeStep`: extend the buffer, produce one new frame per time
step, and advance `nDecodedFrames` by `T`. -/
noncomputable def decodeStepF [LinearOrder L] (d : LexiconDecoder L) (e : Nat → Int → ℝ)
    (T N : Nat) : LexiconDecoder L :=
  let startFrame := (d.nDecodedFrames - d.nPrunedFrames).toNat
  let hyp0 := padTo d.hyp (startFrame + T + 2)
  let hyp1 := (List.range T).foldl (stepLoop d e N startFrame) hyp0
  { d with hyp := hyp1, nDecodedFrames := d.nDecodedFrames + T }

/-- `decodeBegin`: a single initial state
`(lm.start(false), root, null, 0, sil, −1, false)` at frame 0, counters
zeroed. -/
def decodeBeginF (d : LexiconDecoder L) : LexiconDecoder L :=
  { d with
    hyp := [[LexiconDecoderState.mk (d.lm.start false) d.root none 0 d.sil (-1) false]],
    nDecodedFrames := 0,
    nPrunedFrames := 0 }

/-- The terminal extension of one state in `decodeEnd`: LM state and
score from `lm.finish`, trie node unchanged, token `sil`, no word, no
blank flag. -/
def endProposal (d : LexiconDecoder L) (p : LexiconDecoderState L) :
    LexiconDecoderState L :=
  LexiconDecoderState.mk (d.lm.finish p.lmState).1 p.lex (some p)
    (p.score + ((d.opt.lmWeight * (d.lm.finish p.lmState).2 : ℝ) : WithBot ℝ))
    d.sil (-1) false

/-- The candidates offered by `decodeEnd`: the terminal extension of
every state of the last beam, restricted to the trie-root states when
at least one exists ("nice ending"). -/
def endOffered (d : LexiconDecoder L) : List (LexiconDecoderState L) :=
  let frame := d.hyp.getD (d.nDecodedFrames - d.nPrunedFrames).toNat []
  let hasNiceEnding := frame.any (fun s => decide (s.lex.id = d.root.id))
  frame.flatMap
    (fun p => if hasNiceEnding = false ∨ p.lex.id = d.root.id then [endProposal d p] else [])

/-- `decodeEnd`: extend the last beam once more — only the trie-root
states when one exists ("nice ending"), every state otherwise — store
sorted into the next frame, and advance `nDecodedFrames` by one. -/
noncomputable def decodeEndF [LinearOrder L] (d : LexiconDecoder L) : LexiconDecoder L :=
  let cur := (d.nDecodedFrames - d.nPrunedFrames).toNat
  let buf := (endOffered d).foldl (candidatesAdd d.opt) candidatesReset
  { d with
    hyp := (padTo d.hyp (cur + 2)).set (cur + 1) (candidatesStore d.opt buf true),
    nDecodedFrames := d.nDecodedFrames + 1 }

/-- Decode result: total score and the emissions-aligned word and token
sequences. -/
structure DecodeResult where
  score : WithBot ℝ
  words : List Int
  tokens : List Int

/-- The default-constructed (empty) decode result. -/
def emptyDecodeResult : DecodeResult :=
  ⟨0, [], []⟩

/-- Words along the parent chain of a state, oldest first. -/
def pathWords : LexiconDecoderState L → List Int
  | .mk _ _ none _ _ w _ => [w]
  | .mk _ _ (some par) _ _ w _ => pathWords par ++ [w]

/-- Tokens along the parent chain of a state, oldest first. -/
def pathTokens : LexiconDecoderState L → List Int
  | .mk _ _ none _ t _ _ => [t]
  | .mk _ _ (some par) _ t _ _ => pathTokens par ++ [t]

/-- Modelled from the spec: `getHypothesis` walks parent pointers from
the node back to the start, collecting tokens and words, then reverses;
a missing node yields the empty result (helper from the decoder utility
header, absent from the sources at hand). -/
def getHypothesis (node : Option (LexiconDecoderState L)) (_finalFrame : Nat) :
    DecodeResult :=
  match node with
  | none => emptyDecodeResult
  | some s => ⟨s.score, pathWords s, pathTokens s⟩

open Classical in
/-- The best-scoring state of a nonempty frame; the first one wins
ties. -/
noncomputable def bestStateIn (x : LexiconDecoderState L)
    (xs : List (LexiconDecoderState L)) : LexiconDecoderState L :=
  xs.foldl (fun b c => if b.score < c.score then c else b) x

/-- The `lookBack`-th ancestor of a state along its parent chain. -/
def nthAncestor : Nat → LexiconDecoderState L → Option (LexiconDecoderState L)
  | 0, s => some s
  | k + 1, s =>
    match s.parent with
    | none => none
    | some p => nthAncestor k p

/-- Modelled from the spec: `findBestAncestor` returns the `lookBack`-th
ancestor of the best-scoring state of the frame, or nothing when the
frame is empty or the chain is too short (helper from the decoder
utility header, absent from the sources at hand). -/
noncomputable def findBestAncestor (frame : List (LexiconDecoderState L))
    (lookBack : Int) : Option (LexiconDecoderState L) :=
  match frame with
  | [] => none
  | x :: xs => nthAncestor lookBack.toNat (bestStateIn x xs)

/-- `getBestHypothesis`: empty result unless at least one frame is left
beyond the look-back window; otherwise backtrack from the best ancestor
of the current frame. -/
noncomputable def getBestHypothesis (d : LexiconDecoder L) (lookBack : Int) : DecodeResult :=
  if d.nDecodedFrames - d.nPrunedFrames - lookBack < 1 then emptyDecodeResult
  else
    getHypothesis
      (findBestAncestor (d.hyp.getD (d.nDecodedFrames - d.nPrunedFrames).toNat []) lookBack)
      (d.nDecodedFrames - d.nPrunedFrames - lookBack).toNat

/-- Modelled from the spec: `pruneAndNormalize` drops the frames before
`startFrame` and subtracts the base score from every remaining state
(helper from the decoder utility header, absent from the sources at
hand). -/
noncomputable def pruneAndNormalize (hyp : List (List (LexiconDecoderState L)))
    (startFrame : Nat) (base : WithBot ℝ) : List (List (LexiconDecoderState L)) :=
  (hyp.drop startFrame).map (fun fr =>
    fr.map (fun s => s.setScore (WithBot.recBotCoe s.score (fun b => shiftDown s.score b) base)))

/-- `prune(lookBack)`: return unchanged without enough decoded history,
or when no best ancestor exists, or when the start frame is not past
frame 0; otherwise rebase the buffer and record the pruned frames. -/
noncomputable def pruneF (d : LexiconDecoder L) (lookBack : Int) : LexiconDecoder L :=
  if d.nDecodedFrames - d.nPrunedFrames - lookBack < 1 then d
  else
    match findBestAncestor (d.hyp.getD (d.nDecodedFrames - d.nPrunedFrames).toNat []) lookBack with
    | none => d
    | some bestNode =>
      if d.nDecodedFrames - d.nPrunedFrames - lookBack < 1 then d
      else
        { d with
          hyp := pruneAndNormalize d.hyp (d.nDecodedFrames - d.nPrunedFrames - lookBack).toNat
            bestNode.score,
          nPrunedFrames := d.nDecodedFrames - lookBack }

/-- A full decoding run: `decode_begin`, one `decode_step` per input
chunk, then `decode_end`. -/
noncomputable def runDecoder [LinearOrder L] (d : LexiconDecoder L)
    (inputs : List ((Nat → Int → ℝ) × Nat × Nat)) : LexiconDecoder L :=
  decodeEndF
    (inputs.foldl (fun acc em => decodeStepF acc em.1 em.2.1 em.2.2) (decodeBeginF d))

/-! Lexicographic view of the merge comparator, used to reason about
the sort-and-sweep of `mergeCandidates`. -/

/-- The full comparison tuple of a state, ordered lexicographically:
`compareNodesShortList a b` holds exactly when `sortTuple b < sortTuple
a`. -/
def sortTuple [LinearOrder L] (s : LexiconDecoderState L) :
    Lex (L × Lex (Nat × Lex (Int × Lex (Bool × WithBot ℝ)))) :=
  toLex (s.lmState, toLex (s.lex.id, toLex (s.token, toLex (s.prevBlank, s.score))))

/-- The equivalence key of a state as a lexicographically ordered
tuple. -/
def keyTuple [LinearOrder L] (s : LexiconDecoderState L) :
    Lex (L × Lex (Nat × Lex (Int × Bool))) :=
  toLex (s.lmState, toLex (s.lex.id, toLex (s.token, s.prevBlank)))

theorem key_eq_iff_keyTuple_eq [LinearOrder L] (a b : LexiconDecoderState L) :
    a.key = b.key ↔ keyTuple a = keyTuple b := by
  simp [LexiconDecoderState.key, keyTuple, Prod.ext_iff]

theorem sortTuple_eq_iff [LinearOrder L] (a b : LexiconDecoderState L) :
    sortTuple a = sortTuple b ↔ a.key = b.key ∧ a.score = b.score := by
  simp [sortTuple, LexiconDecoderState.key, Prod.ext_iff]
  tauto

theorem compareNodesShortList_iff [LinearOrder L] (a b : LexiconDecoderState L) :
    compareNodesShortList a b ↔ sortTuple b < sortTuple a := by
  unfold compareNodesShortList sortTuple
  by_cases h1 : a.lmState = b.lmState
  · by_cases h2 : a.lex.id = b.lex.id
    · by_cases h3 : a.token = b.token
      · by_cases h4 : a.prevBlank = b.prevBlank
        · simp [h1, h2, h3, h4, Prod.Lex.lt_iff]
        · simp [h1, h2, h3, h4, Ne.symm h4, Prod.Lex.lt_iff]
      · simp [h1, h2, h3, Ne.symm h3, Prod.Lex.lt_iff]
    · simp [h1, h2, Ne.symm h2, Prod.Lex.lt_iff]
  · simp [h1, Ne.symm h1, Prod.Lex.lt_iff]

theorem sortLe_iff [LinearOrder L] (a b : LexiconDecoderState L) :
    sortLe a b ↔ sortTuple b ≤ sortTuple a := by
  rw [sortLe, compareNodesShortList_iff, not_lt]

theorem sortLe_total [LinearOrder L] (a b : LexiconDecoderState L) :
    sortLe a b ∨ sortLe b a := by
  rw [sortLe_iff, sortLe_iff]
  exact le_total (sortTuple b) (sortTuple a)

theorem sortLe_trans [LinearOrder L] {a b c : LexiconDecoderState L}
    (hab : sortLe a b) (hbc : sortLe b c) : sortLe a c := by
  rw [sortLe_iff] at hab hbc ⊢
  exact le_trans hbc hab

theorem keyTuple_mono [LinearOrder L] {a b : LexiconDecoderState L}
    (h : sortTuple a ≤ sortTuple b) : keyTuple a ≤ keyTuple b := by
  unfold sortTuple at h
  unfold keyTuple
  rw [Prod.Lex.le_iff] at h ⊢
  rcases h with h | ⟨h1, h⟩
  · exact Or.inl h
  · refine Or.inr ⟨h1, ?_⟩
    rw [Prod.Lex.le_iff] at h ⊢
    rcases h with h | ⟨h2, h⟩
    · exact Or.inl h
    · refine Or.inr ⟨h2, ?_⟩
      rw [Prod.Lex.le_iff] at h ⊢
      rcases h with h | ⟨h3, h⟩
      · exact Or.inl h
      · refine Or.inr ⟨h3, ?_⟩
        rw [Prod.Lex.le_iff] at h
        rcases h with h | ⟨h4, _⟩
        · exact le_of_lt h
        · exact le_of_eq h4

theorem keyTuple_setScore [LinearOrder L] (x : LexiconDecoderState L) (s : WithBot ℝ) :
    keyTuple (x.setScore s) = keyTuple x := by
  cases x
  rfl

theorem keyTuple_mergeStates [LinearOrder L] (a b : LexiconDecoderState L) (flag : Bool) :
    keyTuple (mergeStates a b flag) = keyTuple a :=
  keyTuple_setScore _ _

theorem sortTuple_le_of_key_eq [LinearOrder L] {a b : LexiconDecoderState L}
    (h : a.key = b.key) : (sortTuple b ≤ sortTuple a ↔ b.score ≤ a.score) := by
  obtain ⟨h1, h2, h3, h4⟩ : a.lmState = b.lmState ∧ a.lex.id = b.lex.id ∧
      a.token = b.token ∧ a.prevBlank = b.prevBlank := by
    simpa [LexiconDecoderState.key, Prod.ext_iff] using h
  simp [sortTuple, Prod.Lex.le_iff, h1, h2, h3, h4]

/-! Properties of the sweep phase of `mergeCandidates`. -/

theorem mergeSweep_props [LinearOrder L] (flag : Bool) (xs : List (LexiconDecoderState L)) :
    ∀ keep : LexiconDecoderState L,
      List.Pairwise (fun a b => keyTuple b ≤ keyTuple a) (keep :: xs) →
      (∀ z ∈ mergeSweep flag keep xs, keyTuple z ≤ keyTuple keep) ∧
      List.Pairwise (fun a b => a.key ≠ b.key) (mergeSweep flag keep xs) := by
  induction xs with
  | nil =>
    intro keep _
    constructor
    · intro z hz
      simp only [mergeSweep, List.mem_singleton] at hz
      simp [hz]
    · simp [mergeSweep]
  | cons x xs ih =>
    intro keep hp
    rw [List.pairwise_cons] at hp
    obtain ⟨hkeep, hp2⟩ := hp
    by_cases hk : x.key = keep.key
    · rw [mergeSweep, if_pos hk]
      have hinv : List.Pairwise (fun a b => keyTuple b ≤ keyTuple a)
          (mergeStates keep x flag :: xs) := by
        rw [List.pairwise_cons]
        refine ⟨fun z hz => ?_, hp2.of_cons⟩
        rw [keyTuple_mergeStates]
        exact hkeep z (List.mem_cons_of_mem _ hz)
      obtain ⟨ihA, ihB⟩ := ih (mergeStates keep x flag) hinv
      refine ⟨fun z hz => ?_, ihB⟩
      have := ihA z hz
      rwa [keyTuple_mergeStates] at this
    · rw [mergeSweep, if_neg hk]
      obtain ⟨ihA, ihB⟩ := ih x hp2
      have hxk : keyTuple x < keyTuple keep := by
        refine lt_of_le_of_ne (hkeep x (List.mem_cons_self _ _)) ?_
        intro hEq
        exact hk ((key_eq_iff_keyTuple_eq x keep).mpr hEq)
      constructor
      · intro z hz
        rcases List.mem_cons.mp hz with hz | hz
        · simp [hz]
        · exact le_trans (ihA z hz) (le_of_lt hxk)
      · rw [List.pairwise_cons]
        refine ⟨fun z hz hEq => ?_, ihB⟩
        have hzk : keyTuple z ≤ keyTuple x := ihA z hz
        have : keyTuple keep = keyTuple z := (key_eq_iff_keyTuple_eq keep z).mp hEq
        rw [← this] at hzk
        exact absurd (lt_of_le_of_lt hzk hxk) (lt_irrefl _)

theorem sortCands_sorted [LinearOrder L] (l : List (LexiconDecoderState L)) :
    List.Sorted sortLe (sortCands l) := by
  haveI : IsTotal (LexiconDecoderState L) sortLe := ⟨sortLe_total⟩
  haveI : IsTrans (LexiconDecoderState L) sortLe := ⟨fun _ _ _ => sortLe_trans⟩
  exact List.sorted_insertionSort sortLe l

theorem mergeCandidates_pairwise_key [LinearOrder L] (flag : Bool)
    (l : List (LexiconDecoderState L)) :
    List.Pairwise (fun a b => a.key ≠ b.key) (mergeCandidates flag l) := by
  unfold mergeCandidates
  have hs := sortCands_sorted l
  rcases hm : sortCands l with _ | ⟨x, xs⟩
  · simp
  · rw [hm] at hs
    have hwk : List.Pairwise (fun a b => keyTuple b ≤ keyTuple a) (x :: xs) :=
      hs.imp (fun hab => keyTuple_mono ((sortLe_iff _ _).mp hab))
    exact (mergeSweep_props flag xs x hwk).2

theorem storeTopCandidates_pairwise_key [LinearOrder L] {l : List (LexiconDecoderState L)}
    (h : List.Pairwise (fun a b => a.key ≠ b.key) l) (beamSize : Nat) :
    List.Pairwise (fun a b => a.key ≠ b.key) (storeTopCandidates l beamSize) := by
  unfold storeTopCandidates
  have hperm : (List.insertionSort scoreBefore l).Perm l := List.perm_insertionSort _ l
  have hsorted : List.Pairwise (fun a b : LexiconDecoderState L => a.key ≠ b.key)
      (List.insertionSort scoreBefore l) :=
    (hperm.pairwise_iff (fun hab => Ne.symm hab)).mpr h
  exact hsorted.sublist (List.take_sublist _ _)

theorem candidatesStore_pairwise_key [LinearOrder L] (opt : DecoderOptions)
    (buf : CandidateBuffer L) (rs : Bool) :
    List.Pairwise (fun a b => a.key ≠ b.key) (candidatesStore opt buf rs) := by
  unfold candidatesStore
  split
  · exact List.Pairwise.nil
  · exact storeTopCandidates_pairwise_key (mergeCandidates_pairwise_key _ _) _

theorem candidatesStore_length_le [LinearOrder L] (opt : DecoderOptions)
    (buf : CandidateBuffer L) (rs : Bool) :
    (candidatesStore opt buf rs).length ≤ opt.beamSize := by
  unfold candidatesStore
  split
  · simp
  · unfold storeTopCandidates
    rw [List.length_take]
    exact min_le_left _ _

/-! Indexing lemmas for the hypothesis buffer across `decodeStep` and
`decodeEnd`. -/

theorem padTo_length {α : Type} (l : List (List α)) (n : Nat) : n ≤ (padTo l n).length := by
  simp only [padTo, List.length_append, List.length_replicate]
  omega

theorem padTo_getD {α : Type} (l : List (List α)) (n i : Nat) :
    (padTo l n).getD i [] = l.getD i [] := by
  rw [List.getD_eq_getElem?_getD, List.getD_eq_getElem?_getD, padTo, List.getElem?_append]
  split
  · rfl
  · rw [List.getElem?_replicate]
    have hnone : l[i]? = none := List.getElem?_eq_none (by omega)
    rw [hnone]
    split
    · rfl
    · rfl

theorem getD_padTo_set {α : Type} (l : List (List α)) (n i : Nat) (v : List α) (h : i < n) :
    ((padTo l n).set i v).getD i [] = v := by
  rw [List.getD_eq_getElem?_getD,
    List.getElem?_set_self (lt_of_lt_of_le h (padTo_length l n)), Option.getD_some]

theorem stepOneFrame_nil [LinearOrder L] (d : LexiconDecoder L) (e : Nat → Int → ℝ)
    (N t : Nat) : stepOneFrame d e N t [] = [] := rfl

theorem foldRange_stepLoop_length [LinearOrder L] (d : LexiconDecoder L) (e : Nat → Int → ℝ)
    (N s : Nat) (T : Nat) :
    ∀ h0 : List (List (LexiconDecoderState L)),
      ((List.range T).foldl (stepLoop d e N s) h0).length = h0.length := by
  induction T with
  | zero => intro h0; rfl
  | succ T ih =>
    intro h0
    rw [List.range_succ, List.foldl_append, List.foldl_cons, List.foldl_nil, stepLoop,
      List.length_set, ih]

theorem foldRange_stepLoop_getD_written [LinearOrder L] (d : LexiconDecoder L)
    (e : Nat → Int → ℝ) (N s : Nat) (T : Nat) :
    ∀ h0 : List (List (LexiconDecoderState L)), s + T + 2 ≤ h0.length →
      ∀ t < T, ∃ fr, ((List.range T).foldl (stepLoop d e N s) h0).getD (s + t + 1) [] =
        stepOneFrame d e N t fr := by
  induction T with
  | zero =>
    intro h0 _ t ht
    exact absurd ht (Nat.not_lt_zero t)
  | succ T ih =>
    intro h0 hlen t ht
    rw [List.range_succ, List.foldl_append, List.foldl_cons, List.foldl_nil, stepLoop]
    by_cases htT : t < T
    · obtain ⟨fr, hfr⟩ := ih h0 (by omega) t htT
      refine ⟨fr, ?_⟩
      rw [List.getD_eq_getElem?_getD, List.getElem?_set_ne (by omega : s + T + 1 ≠ s + t + 1),
        ← List.getD_eq_getElem?_getD]
      exact hfr
    · have hT : t = T := by omega
      subst hT
      refine ⟨((List.range t).foldl (stepLoop d e N s) h0).getD (s + t) [], ?_⟩
      have hlt : s + t + 1 < ((List.range t).foldl (stepLoop d e N s) h0).length := by
        rw [foldRange_stepLoop_length]
        omega
      rw [List.getD_eq_getElem?_getD, List.getElem?_set_self hlt, Option.getD_some]

theorem foldRange_stepLoop_empty [LinearOrder L] (d : LexiconDecoder L) (e : Nat → Int → ℝ)
    (N s : Nat) (T : Nat) :
    ∀ h0 : List (List (LexiconDecoderState L)), h0.getD s [] = [] →
      ∀ t ≤ T, ((List.range T).foldl (stepLoop d e N s) h0).getD (s + t) [] = [] := by
  induction T with
  | zero =>
    intro h0 h t ht
    have ht0 : t = 0 := by omega
    subst ht0
    simpa using h
  | succ T ih =>
    intro h0 h t ht
    rw [List.range_succ, List.foldl_append, List.foldl_cons, List.foldl_nil, stepLoop]
    by_cases htT : t ≤ T
    · rw [List.getD_eq_getElem?_getD, List.getElem?_set_ne (by omega : s + T + 1 ≠ s + t),
        ← List.getD_eq_getElem?_getD]
      exact ih h0 h t htT
    · have hT : t = T + 1 := by omega
      subst hT
      have hprev : ((List.range T).foldl (stepLoop d e N s) h0).getD (s + T) [] = [] :=
        ih h0 h T (le_refl T)
      have hidx : s + (T + 1) = s + T + 1 := by omega
      rw [hidx]
      by_cases hlt : s + T + 1 < ((List.range T).foldl (stepLoop d e N s) h0).length
      · rw [List.getD_eq_getElem?_getD, List.getElem?_set_self hlt, Option.getD_some, hprev,
          stepOneFrame_nil]
      · rw [List.set_eq_of_length_le (by omega)]
        exact List.getD_eq_default _ _ (by omega)

/-! Helper lemmas for the two-candidate merge and for `decodeEnd`. -/

theorem logAdd_comm (x y : WithBot ℝ) : logAdd x y = logAdd y x := by
  unfold logAdd
  induction x using WithBot.recBotCoe with
  | bot =>
    induction y using WithBot.recBotCoe with
    | bot => rfl
    | coe b => simp
  | coe a =>
    induction y using WithBot.recBotCoe with
    | bot => simp
    | coe b =>
      simp only [WithBot.recBotCoe_coe, WithBot.coe_inj]
      rw [max_comm, abs_sub_comm]

theorem logAdd_neg_one :
    logAdd ((-1 : ℝ) : WithBot ℝ) ((-1 : ℝ) : WithBot ℝ) =
      (((-1 : ℝ) + Real.log 2 : ℝ) : WithBot ℝ) := by
  unfold logAdd
  rw [WithBot.recBotCoe_coe, WithBot.recBotCoe_coe, WithBot.coe_inj]
  norm_num

theorem sortCands_pair [LinearOrder L] (a b : LexiconDecoderState L) :
    sortCands [a, b] = if sortLe a b then [a, b] else [b, a] := by
  unfold sortCands
  simp only [List.insertionSort, List.orderedInsert]

theorem mergeCandidates_pair [LinearOrder L] (flag : Bool) (a b : LexiconDecoderState L)
    (hk : a.key = b.key) :
    mergeCandidates flag [a, b] =
      [(if b.score ≤ a.score then a else b).setScore
        (if flag then logAdd a.score b.score else max a.score b.score)] := by
  unfold mergeCandidates
  rw [sortCands_pair]
  by_cases hab : sortLe a b
  · rw [if_pos hab]
    have hba : b.score ≤ a.score := (sortTuple_le_of_key_eq hk).mp ((sortLe_iff a b).mp hab)
    change mergeSweep flag a [b] = _
    rw [mergeSweep, if_pos hk.symm, mergeSweep, if_pos hba]
    rfl
  · rw [if_neg hab]
    have hba : ¬ b.score ≤ a.score := by
      intro hle
      exact hab ((sortLe_iff a b).mpr ((sortTuple_le_of_key_eq hk).mpr hle))
    change mergeSweep flag b [a] = _
    rw [mergeSweep, if_pos hk, mergeSweep, if_neg hba]
    unfold mergeStates
    rw [logAdd_comm b.score a.score, max_comm b.score a.score]

theorem flatMap_if_singleton {α β : Type} (l : List α) (q : α → Prop) [DecidablePred q]
    (f : α → β) :
    (l.flatMap fun x => if q x then [f x] else []) =
      (l.filter fun x => decide (q x)).map f := by
  induction l with
  | nil => rfl
  | cons x xs ih =>
    by_cases h : q x
    · simp [h, ih]
    · simp [h, ih]

theorem flatMap_singleton_eq_map {α β : Type} (l : List α) (f : α → β) :
    (l.flatMap fun x => [f x]) = l.map f := by
  induction l with
  | nil => rfl
  | cons x xs ih => simp [ih]

/-! Concrete instances used to exercise the theorems: a constant LM over
integer states, a one-word trie spelling token 2 into word 7, and a CTC
configuration. -/

/-- An LM over integer states that scores everything 0 and never moves. -/
def exLM : LM Int :=
  ⟨fun _ => 0, fun s _ => (s, 0), fun s => (s, 0)⟩

/-- A leaf trie node holding word label 7. -/
def exChild : TrieNode :=
  .mk 1 [] [7] 0

/-- A trie root with a single child at token 2. -/
def exRoot : TrieNode :=
  .mk 0 [((2 : Int), exChild)] [] 0

/-- A CTC configuration: beam 2, token beam 5, threshold 10, LM weight 1,
no bonuses, unknown words disabled, max merging. -/
def exOpt : DecoderOptions :=
  ⟨2, 5, 10, 1, 0, ⊥, 0, false, CriterionType.CTC⟩

/-- The initial hypothesis at the trie root. -/
def exInit : LexiconDecoderState Int :=
  .mk 0 exRoot none 0 0 (-1) false

/-- A hypothesis at the trie root whose last token is 2, with
`prevBlank` false. -/
def exP : LexiconDecoderState Int :=
  .mk 0 exRoot none 0 2 (-1) false

/-- A hypothesis with LM state 1 (for comparator facts). -/
def exQ : LexiconDecoderState Int :=
  .mk 1 exRoot none 0 0 (-1) false

/-- Two equal-key hypotheses scoring −1 that differ in their word
field. -/
def exA : LexiconDecoderState Int :=
  .mk 0 exRoot none ((-1 : ℝ) : WithBot ℝ) 5 (-1) false

/-- See `exA`; same key, word 3 instead. -/
def exB : LexiconDecoderState Int :=
  .mk 0 exRoot none ((-1 : ℝ) : WithBot ℝ) 5 3 false

/-- The zero emissions matrix. -/
def eZero : Nat → Int → ℝ :=
  fun _ _ => 0

/-- A freshly begun decoder over `exLM`, `exRoot`, the CTC options, and
zero transitions. -/
def exDec : LexiconDecoder Int :=
  ⟨exOpt, exLM, exRoot, 0, 1, 3, false, fun _ _ => 0, [[exInit]], 0, 0⟩

/-- A decoder with three decoded frames whose current frame is empty. -/
def exDecG : LexiconDecoder Int :=
  { exDec with hyp := [[exInit], [], [], []], nDecodedFrames := 3 }

/-- A decoder whose current frame (frame 0) is empty. -/
def exDecEmpty : LexiconDecoder Int :=
  { exDec with hyp := [[]] }

theorem rule1Proposals_some {L : Type} (d : LexiconDecoder L) (e : Nat → Int → ℝ)
    (t : Nat) (p : LexiconDecoderState L) (n : Int) (lex : TrieNode)
    (hL : p.lex.findChild n = some lex) :
    rule1Proposals d e t p n =
      continueProposals d p n lex (if p.lex.id = d.root.id then 0 else p.lex.maxScore)
          (stepScore d e t p n) (d.lm.score p.lmState n) ++
        wordProposals d p n lex (if p.lex.id = d.root.id then 0 else p.lex.maxScore)
          (stepScore d e t p n) (d.lm.score p.lmState n) ++
        unkProposals d p n lex (if p.lex.id = d.root.id then 0 else p.lex.maxScore)
          (stepScore d e t p n) (d.lm.score p.lmState n) := by
  unfold rule1Proposals
  rw [hL]

/-- C1 counterexample: at a concrete CTC input where the previous state
`exP` sits at the trie root with `prevBlank = false` and last token 2,
and where the root has a child at token 2 carrying word label 7, Rule 1
still offers a word-emission candidate for that label (word 7), so the
claim that under these conditions Rule 1 emits no candidate at all is
false: the suppression guard covers only the continue-spelling branch of
the source. -/
theorem C1_counterexample :
    exDec.opt.criterionType = CriterionType.CTC ∧
    exP.prevBlank = false ∧
    exP.token = 2 ∧
    exP.lex.findChild 2 = some exChild ∧
    ¬ (rule1Proposals exDec eZero 0 exP 2 = []) ∧
    (rule1Proposals exDec eZero 0 exP 2).map LexiconDecoderState.word = [7] := by
  refine ⟨rfl, rfl, rfl, rfl, ?_, ?_⟩
  · intro h
    have : (rule1Proposals exDec eZero 0 exP 2).map LexiconDecoderState.word = [7] := rfl
    rw [h] at this
    exact absurd this (by simp)
  · rfl

/-- C1 (amended): under the CTC criterion, when `p.prev_blank` is false
and the candidate token `n` equals `p.token` and `p.lex` has a child at
`n`, Rule 1 suppresses only the continue-spelling candidate; the
word-emission candidates for the child's labels and the unknown-word
candidate are still offered exactly as without the guard. -/
theorem C1_rule1_repeat_suppresses_continue_only {L : Type} (d : LexiconDecoder L)
    (e : Nat → Int → ℝ) (t : Nat) (p : LexiconDecoderState L) (n : Int) (lex : TrieNode)
    (hC : d.opt.criterionType = CriterionType.CTC) (hB : p.prevBlank = false)
    (hT : n = p.token) (hL : p.lex.findChild n = some lex) :
    (∀ (lexMax : ℝ) (score : WithBot ℝ) (tokLm : L × ℝ),
      continueProposals d p n lex lexMax score tokLm = []) ∧
    rule1Proposals d e t p n =
      wordProposals d p n lex (if p.lex.id = d.root.id then 0 else p.lex.maxScore)
          (stepScore d e t p n) (d.lm.score p.lmState n) ++
        unkProposals d p n lex (if p.lex.id = d.root.id then 0 else p.lex.maxScore)
          (stepScore d e t p n) (d.lm.score p.lmState n) := by
  have hcont : ∀ (lexMax : ℝ) (score : WithBot ℝ) (tokLm : L × ℝ),
      continueProposals d p n lex lexMax score tokLm = [] := by
    intro lexMax score tokLm
    unfold continueProposals
    rw [if_neg]
    push_neg
    exact ⟨hC, by simp [hB], hT⟩
  refine ⟨hcont, ?_⟩
  rw [rule1Proposals_some d e t p n lex hL, hcont, List.nil_append]

/-- C1 witness for the amended claim, at the concrete input of the
counterexample. -/
theorem C1_rule1_repeat_suppresses_continue_only_witness :
    (∀ (lexMax : ℝ) (score : WithBot ℝ) (tokLm : Int × ℝ),
      continueProposals exDec exP 2 exChild lexMax score tokLm = []) ∧
    rule1Proposals exDec eZero 0 exP 2 =
      wordProposals exDec exP 2 exChild
          (if exP.lex.id = exDec.root.id then 0 else exP.lex.maxScore)
          (stepScore exDec eZero 0 exP 2) (exDec.lm.score exP.lmState 2) ++
        unkProposals exDec exP 2 exChild
          (if exP.lex.id = exDec.root.id then 0 else exP.lex.maxScore)
          (stepScore exDec eZero 0 exP 2) (exDec.lm.score exP.lmState 2) :=
  C1_rule1_repeat_suppresses_continue_only exDec eZero 0 exP 2 exChild rfl rfl rfl rfl

/-- C3: merging two equal-key candidates produces a single state whose
score is the log-add of the two scores when `log_add` is set and their
maximum otherwise, and which otherwise copies the higher-scoring of the
two candidates (so its parent; the first one wins score ties); in
particular two paths scoring −1.0 merge to −1.0 + log 2 under log-add
and to −1.0 under max. -/
theorem C3_merge_semantics {L : Type} [LinearOrder L] (flag : Bool)
    (a b : LexiconDecoderState L) (hk : a.key = b.key) :
    mergeCandidates flag [a, b] =
      [(if b.score ≤ a.score then a else b).setScore
        (if flag then logAdd a.score b.score else max a.score b.score)] ∧
    (a.score = ((-1 : ℝ) : WithBot ℝ) → b.score = ((-1 : ℝ) : WithBot ℝ) →
      (mergeCandidates true [a, b]).map LexiconDecoderState.score =
          [(((-1 : ℝ) + Real.log 2 : ℝ) : WithBot ℝ)] ∧
        (mergeCandidates false [a, b]).map LexiconDecoderState.score =
          [((-1 : ℝ) : WithBot ℝ)]) := by
  refine ⟨mergeCandidates_pair flag a b hk, fun ha hb => ⟨?_, ?_⟩⟩
  · rw [mergeCandidates_pair true a b hk]
    simp [ha, hb, logAdd_neg_one]
  · rw [mergeCandidates_pair false a b hk]
    simp [ha, hb]

/-- C3 witness at two concrete equal-key candidates scoring −1.0 that
differ in their word field. -/
theorem C3_merge_semantics_witness :
    mergeCandidates true [exA, exB] =
      [(if exB.score ≤ exA.score then exA else exB).setScore
        (if true then logAdd exA.score exB.score else max exA.score exB.score)] ∧
    (exA.score = ((-1 : ℝ) : WithBot ℝ) → exB.score = ((-1 : ℝ) : WithBot ℝ) →
      (mergeCandidates true [exA, exB]).map LexiconDecoderState.score =
          [(((-1 : ℝ) + Real.log 2 : ℝ) : WithBot ℝ)] ∧
        (mergeCandidates false [exA, exB]).map LexiconDecoderState.score =
          [((-1 : ℝ) : WithBot ℝ)]) :=
  C3_merge_semantics true exA exB rfl

/-- C5: with insufficient decoded history
(`n_decoded_frames − n_pruned_frames − look_back < 1`), `prune` returns
the decoder — hypothesis buffer, scores, and both counters — entirely
unchanged. -/
theorem C5_prune_insufficient_history_noop {L : Type} (d : LexiconDecoder L)
    (lookBack : Int) (h : d.nDecodedFrames - d.nPrunedFrames - lookBack < 1) :
    pruneF d lookBack = d := by
  unfold pruneF
  rw [if_pos h]

/-- C5 witness: pruning a freshly begun decoder with look-back 5 changes
nothing. -/
theorem C5_prune_insufficient_history_noop_witness :
    pruneF exDec 5 = exDec :=
  C5_prune_insufficient_history_noop exDec 5 (by decide)

/-- C7: under CTC, Rule 3 offers exactly one blank candidate, keeping
the trie node, with word −1, `prevBlank` set, and score
`p.score + emit[blank]` — for every decoder, so in particular with no
transition term, no silence bonus, and no LM update even when blank
equals the silence index or a transition matrix is present. -/
theorem C7_rule3_blank {L : Type} (d : LexiconDecoder L) (e : Nat → Int → ℝ) (t : Nat)
    (p : LexiconDecoderState L) (h : d.opt.criterionType = CriterionType.CTC) :
    rule3Proposals d e t p =
      [LexiconDecoderState.mk p.lmState p.lex (some p)
        (p.score + ((e t d.blank : ℝ) : WithBot ℝ)) d.blank (-1) true] := by
  unfold rule3Proposals
  rw [if_pos h]

/-- C7 witness at the concrete CTC decoder. -/
theorem C7_rule3_blank_witness :
    rule3Proposals exDec eZero 0 exP =
      [LexiconDecoderState.mk exP.lmState exP.lex (some exP)
        (exP.score + ((eZero 0 exDec.blank : ℝ) : WithBot ℝ)) exDec.blank (-1) true] :=
  C7_rule3_blank exDec eZero 0 exP rfl

/-- C10: when the frame-count guard passes but `findBestAncestor` over
the current frame returns nothing (for example because the current
frame is empty), `prune` also returns with the decoder completely
unchanged; the pruned-frame counter and the scores are only touched when
an ancestor was found. -/
theorem C10_prune_no_ancestor_noop {L : Type} (d : LexiconDecoder L) (lookBack : Int)
    (hg : ¬ (d.nDecodedFrames - d.nPrunedFrames - lookBack < 1))
    (ha : findBestAncestor (d.hyp.getD (d.nDecodedFrames - d.nPrunedFrames).toNat [])
      lookBack = none) :
    pruneF d lookBack = d := by
  unfold pruneF
  rw [if_neg hg, ha]

/-- C10 witness: a decoder with three decoded frames whose current frame
is empty; the guard passes and `findBestAncestor` finds nothing. -/
theorem C10_prune_no_ancestor_noop_witness :
    pruneF exDecG 1 = exDecG :=
  C10_prune_no_ancestor_noop exDecG 1 (by decide) rfl

theorem stepOneFrame_eq_store [LinearOrder L] (d : LexiconDecoder L) (e : Nat → Int → ℝ)
    (N t : Nat) (fr : List (LexiconDecoderState L)) :
    stepOneFrame d e N t fr =
      candidatesStore d.opt
        ((fr.flatMap (fun p => expandState d e t (tokensConsidered d.opt e t N) p)).foldl
          (candidatesAdd d.opt) candidatesReset)
        false := rfl

/-- C2: every frame stored by `candidatesStore` — hence every frame
produced by `decodeStep` and the frame produced by `decodeEnd` — has
pairwise distinct equivalence keys: the sort-and-sweep of
`mergeCandidates` collapses every run of equal-key candidates into a
single state, and pruning and top-K selection preserve distinctness. -/
theorem C2_frame_keys_unique {L : Type} [LinearOrder L] :
    (∀ (opt : DecoderOptions) (buf : CandidateBuffer L) (rs : Bool),
      List.Pairwise (fun a b => a.key ≠ b.key) (candidatesStore opt buf rs)) ∧
    (∀ (d : LexiconDecoder L) (e : Nat → Int → ℝ) (T N t : Nat), t < T →
      List.Pairwise (fun a b => a.key ≠ b.key)
        ((decodeStepF d e T N).hyp.getD
          ((d.nDecodedFrames - d.nPrunedFrames).toNat + t + 1) [])) ∧
    (∀ d : LexiconDecoder L,
      List.Pairwise (fun a b => a.key ≠ b.key)
        ((decodeEndF d).hyp.getD ((d.nDecodedFrames - d.nPrunedFrames).toNat + 1) [])) := by
  refine ⟨candidatesStore_pairwise_key, ?_, ?_⟩
  · intro d e T N t ht
    obtain ⟨fr, hfr⟩ := foldRange_stepLoop_getD_written d e N
      (d.nDecodedFrames - d.nPrunedFrames).toNat T
      (padTo d.hyp ((d.nDecodedFrames - d.nPrunedFrames).toNat + T + 2))
      (padTo_length _ _) t ht
    rw [show (decodeStepF d e T N).hyp =
        (List.range T).foldl (stepLoop d e N (d.nDecodedFrames - d.nPrunedFrames).toNat)
          (padTo d.hyp ((d.nDecodedFrames - d.nPrunedFrames).toNat + T + 2)) from rfl,
      hfr, stepOneFrame_eq_store]
    exact candidatesStore_pairwise_key _ _ _
  · intro d
    rw [show (decodeEndF d).hyp =
        (padTo d.hyp ((d.nDecodedFrames - d.nPrunedFrames).toNat + 2)).set
          ((d.nDecodedFrames - d.nPrunedFrames).toNat + 1)
          (candidatesStore d.opt
            ((endOffered d).foldl (candidatesAdd d.opt) candidatesReset) true) from rfl,
      getD_padTo_set d.hyp _ _ _ (by omega)]
    exact candidatesStore_pairwise_key _ _ _

/-- C2 witness: the first frame produced by a one-step decode of the
concrete decoder has pairwise distinct keys. -/
theorem C2_frame_keys_unique_witness :
    List.Pairwise (fun a b => a.key ≠ b.key)
      ((decodeStepF exDec eZero 1 1).hyp.getD
        ((exDec.nDecodedFrames - exDec.nPrunedFrames).toNat + 0 + 1) []) :=
  (@C2_frame_keys_unique Int _).2.1 exDec eZero 1 1 0 (by decide)

/-- C4: `decode_end` extends only the trie-root states when at least one
exists in the last beam and every state otherwise; each extension is
`(lm.finish(p.lm_state).1, p.lex, p, p.score + lm_weight · s, sil, −1,
false)`; the result is stored (sorted) into the next frame, and
`n_decoded_frames` grows by exactly one. -/
theorem C4_decodeEnd_spec {L : Type} [LinearOrder L] (d : LexiconDecoder L) :
    (decodeEndF d).nDecodedFrames = d.nDecodedFrames + 1 ∧
    (decodeEndF d).hyp.getD ((d.nDecodedFrames - d.nPrunedFrames).toNat + 1) [] =
      candidatesStore d.opt ((endOffered d).foldl (candidatesAdd d.opt) candidatesReset)
        true ∧
    endOffered d =
      (if (d.hyp.getD (d.nDecodedFrames - d.nPrunedFrames).toNat []).any
            (fun s => decide (s.lex.id = d.root.id)) = true then
        (d.hyp.getD (d.nDecodedFrames - d.nPrunedFrames).toNat []).filter
          (fun s => decide (s.lex.id = d.root.id))
      else
        d.hyp.getD (d.nDecodedFrames - d.nPrunedFrames).toNat []).map (endProposal d) ∧
    ∀ p : LexiconDecoderState L, endProposal d p =
      LexiconDecoderState.mk (d.lm.finish p.lmState).1 p.lex (some p)
        (p.score + ((d.opt.lmWeight * (d.lm.finish p.lmState).2 : ℝ) : WithBot ℝ))
        d.sil (-1) false := by
  refine ⟨rfl, getD_padTo_set d.hyp _ _ _ (by omega), ?_, fun p => rfl⟩
  by_cases hA : (d.hyp.getD (d.nDecodedFrames - d.nPrunedFrames).toNat []).any
      (fun s => decide (s.lex.id = d.root.id)) = true
  · rw [if_pos hA]
    unfold endOffered
    simp only [hA, Bool.true_eq_false, false_or]
    rw [flatMap_if_singleton]
  · rw [if_neg hA]
    have hA' : (d.hyp.getD (d.nDecodedFrames - d.nPrunedFrames).toNat []).any
        (fun s => decide (s.lex.id = d.root.id)) = false := by
      simpa using hA
    unfold endOffered
    simp only [hA', true_or, if_true]
    rw [flatMap_singleton_eq_map]

/-- C6: the merge comparator is a strict total order with a score
tie-break — any two states are comparable or agree on both key and
score, the order is asymmetric and transitive — and decoding is a pure
function of its inputs, so two runs of the same call sequence on the
same inputs produce identical beams at every frame. -/
theorem C6_determinism {L : Type} [LinearOrder L] :
    (∀ a b : LexiconDecoderState L,
      compareNodesShortList a b ∨ compareNodesShortList b a ∨
        (a.key = b.key ∧ a.score = b.score)) ∧
    (∀ a b : LexiconDecoderState L,
      compareNodesShortList a b → ¬ compareNodesShortList b a) ∧
    (∀ a b c : LexiconDecoderState L,
      compareNodesShortList a b → compareNodesShortList b c →
        compareNodesShortList a c) ∧
    (∀ (d : LexiconDecoder L) (inputs : List ((Nat → Int → ℝ) × Nat × Nat)),
      runDecoder d inputs = runDecoder d inputs) := by
  refine ⟨?_, ?_, ?_, fun d inputs => rfl⟩
  · intro a b
    rcases lt_trichotomy (sortTuple a) (sortTuple b) with h | h | h
    · exact Or.inr (Or.inl ((compareNodesShortList_iff b a).mpr h))
    · exact Or.inr (Or.inr ((sortTuple_eq_iff a b).mp h))
    · exact Or.inl ((compareNodesShortList_iff a b).mpr h)
  · intro a b hab
    rw [compareNodesShortList_iff] at hab ⊢
    exact lt_asymm hab
  · intro a b c hab hbc
    rw [compareNodesShortList_iff] at hab hbc ⊢
    exact lt_trans hbc hab

/-- C6 witness: comparing two concrete states with distinct LM states
one way forbids the other way. -/
theorem C6_determinism_witness :
    ¬ compareNodesShortList exInit exQ :=
  (@C6_determinism Int _).2.1 exQ exInit (by simp [compareNodesShortList, exQ, exInit])

/-- C8: every frame stored by `candidatesStore` — hence each frame newly
produced by `decodeStep` and the frame produced by `decodeEnd` — holds
at most `beam_size` states. -/
theorem C8_beam_size_bound {L : Type} [LinearOrder L] :
    (∀ (opt : DecoderOptions) (buf : CandidateBuffer L) (rs : Bool),
      (candidatesStore opt buf rs).length ≤ opt.beamSize) ∧
    (∀ (d : LexiconDecoder L) (e : Nat → Int → ℝ) (T N t : Nat), t < T →
      ((decodeStepF d e T N).hyp.getD
        ((d.nDecodedFrames - d.nPrunedFrames).toNat + t + 1) []).length ≤
        d.opt.beamSize) ∧
    (∀ d : LexiconDecoder L,
      ((decodeEndF d).hyp.getD ((d.nDecodedFrames - d.nPrunedFrames).toNat + 1) []).length ≤
        d.opt.beamSize) := by
  refine ⟨candidatesStore_length_le, ?_, ?_⟩
  · intro d e T N t ht
    obtain ⟨fr, hfr⟩ := foldRange_stepLoop_getD_written d e N
      (d.nDecodedFrames - d.nPrunedFrames).toNat T
      (padTo d.hyp ((d.nDecodedFrames - d.nPrunedFrames).toNat + T + 2))
      (padTo_length _ _) t ht
    rw [show (decodeStepF d e T N).hyp =
        (List.range T).foldl (stepLoop d e N (d.nDecodedFrames - d.nPrunedFrames).toNat)
          (padTo d.hyp ((d.nDecodedFrames - d.nPrunedFrames).toNat + T + 2)) from rfl,
      hfr, stepOneFrame_eq_store]
    exact candidatesStore_length_le _ _ _
  · intro d
    rw [show (decodeEndF d).hyp =
        (padTo d.hyp ((d.nDecodedFrames - d.nPrunedFrames).toNat + 2)).set
          ((d.nDecodedFrames - d.nPrunedFrames).toNat + 1)
          (candidatesStore d.opt
            ((endOffered d).foldl (candidatesAdd d.opt) candidatesReset) true) from rfl,
      getD_padTo_set d.hyp _ _ _ (by omega)]
    exact candidatesStore_length_le _ _ _

/-- C8 witness: the first frame of a one-step decode of the concrete
decoder respects the beam width. -/
theorem C8_beam_size_bound_witness :
    ((decodeStepF exDec eZero 1 1).hyp.getD
      ((exDec.nDecodedFrames - exDec.nPrunedFrames).toNat + 0 + 1) []).length ≤
      exDec.opt.beamSize :=
  (@C8_beam_size_bound Int _).2.1 exDec eZero 1 1 0 (by decide)

/-- C9: an empty candidate buffer stores an empty frame; a `decodeStep`
starting from an empty current frame leaves the current frame and every
newly produced frame empty (and is total, so it cannot fail); and
`getBestHypothesis` after such a step returns the empty result. -/
theorem C9_empty_frame_propagation {L : Type} [LinearOrder L] :
    (∀ (opt : DecoderOptions) (buf : CandidateBuffer L) (rs : Bool), buf.cands = [] →
      candidatesStore opt buf rs = []) ∧
    (∀ (d : LexiconDecoder L) (e : Nat → Int → ℝ) (T N : Nat),
      d.hyp.getD (d.nDecodedFrames - d.nPrunedFrames).toNat [] = [] →
      ∀ t ≤ T, (decodeStepF d e T N).hyp.getD
        ((d.nDecodedFrames - d.nPrunedFrames).toNat + t) [] = []) ∧
    (∀ (d : LexiconDecoder L) (e : Nat → Int → ℝ) (T N : Nat) (lookBack : Int),
      0 ≤ d.nDecodedFrames - d.nPrunedFrames →
      d.hyp.getD (d.nDecodedFrames - d.nPrunedFrames).toNat [] = [] →
      getBestHypothesis (decodeStepF d e T N) lookBack = emptyDecodeResult) := by
  have hstep : ∀ (d : LexiconDecoder L) (e : Nat → Int → ℝ) (T N : Nat),
      d.hyp.getD (d.nDecodedFrames - d.nPrunedFrames).toNat [] = [] →
      ∀ t ≤ T, (decodeStepF d e T N).hyp.getD
        ((d.nDecodedFrames - d.nPrunedFrames).toNat + t) [] = [] := by
    intro d e T N h t ht
    rw [show (decodeStepF d e T N).hyp =
        (List.range T).foldl (stepLoop d e N (d.nDecodedFrames - d.nPrunedFrames).toNat)
          (padTo d.hyp ((d.nDecodedFrames - d.nPrunedFrames).toNat + T + 2)) from rfl]
    refine foldRange_stepLoop_empty d e N _ T _ ?_ t ht
    rw [padTo_getD]
    exact h
  refine ⟨?_, hstep, ?_⟩
  · intro opt buf rs h
    unfold candidatesStore
    rw [h]
  · intro d e T N lookBack hge hempty
    have hidx : ((decodeStepF d e T N).nDecodedFrames -
        (decodeStepF d e T N).nPrunedFrames).toNat =
        (d.nDecodedFrames - d.nPrunedFrames).toNat + T := by
      show ((d.nDecodedFrames + (T : Int)) - d.nPrunedFrames).toNat = _
      omega
    have hframe := hstep d e T N hempty T (le_refl T)
    unfold getBestHypothesis
    split
    · rfl
    · rw [hidx, hframe]
      rfl

/-- C9 witness: one decode step from an empty frame yields an empty next
frame and an empty best hypothesis. -/
theorem C9_empty_frame_propagation_witness :
    (decodeStepF exDecEmpty eZero 1 1).hyp.getD
      ((exDecEmpty.nDecodedFrames - exDecEmpty.nPrunedFrames).toNat + 1) [] = [] ∧
    getBestHypothesis (decodeStepF exDecEmpty eZero 1 1) 0 = emptyDecodeResult :=
  ⟨(@C9_empty_frame_propagation Int _).2.1 exDecEmpty eZero 1 1 rfl 1 (le_refl 1),
    (@C9_empty_frame_propagation Int _).2.2 exDecEmpty eZero 1 1 0 (by decide) rfl⟩

end W2L
